import Mathlib

/-!
Verification of the spec-test core against a shallow embedding of its
Python sources (`spec_test/collector.py`, `spec_test/contracts.py`).

The collector's regular expression
`\*\*([A-Z]+-\d+)\*\*((?:\s*\[\w+\])*):\s*(.+?)$` is embedded as an
executable matcher over `List Char`; character classes are the ASCII
fragments of Python's `\s`, `\w`, `\d`, `[A-Z]`.  Contract enforcement is
embedded with explicit outcomes for predicates that return a boolean,
raise `TypeError`, or raise any other exception, and with an explicit
state parameter so that the ordering of side effects around the wrapped
function body is observable.
-/

namespace SpecTest

/-- ASCII fragment of Python's `\s` character class (`str.strip` /
regex whitespace). -/
def isSpaceC (c : Char) : Bool :=
  c = ' ' || c = '\t' || c = '\n' || c = '\r' || c = '\x0b' || c = '\x0c'

/-- The regex class `[A-Z]`. -/
def isUpperC (c : Char) : Bool := 'A' ≤ c && c ≤ 'Z'

/-- ASCII fragment of the regex class `\d`. -/
def isDigitC (c : Char) : Bool := '0' ≤ c && c ≤ '9'

/-- ASCII fragment of the regex class `\w`. -/
def isWordC (c : Char) : Bool :=
  ('A' ≤ c && c ≤ 'Z') || ('a' ≤ c && c ≤ 'z') || ('0' ≤ c && c ≤ '9') || c = '_'

/-- Modelled from the spec: `verificationKind` is one of `Test`, `Manual`,
`Skip` (the enum lives in `spec_test/types.py`, which is not among the
provided sources; only its import and constructors are visible). -/
inductive VerificationType where
  | TEST
  | MANUAL
  | SKIP
deriving DecidableEq

/-- Modelled from the spec: a `RequirementRecord` carries the identifier,
free-text description, source location (file and 1-based line) and the
verification kind (the dataclass lives in `spec_test/types.py`, not among
the provided sources; the field list is visible at the construction site
in `collector.py`). -/
structure SpecRequirement where
  id : String
  description : String
  source_file : String
  source_line : Nat
  verification_type : VerificationType
deriving DecidableEq

/-- Python `str.lower` (ASCII fragment). -/
def strLower (s : String) : String := (s.toList.map Char.toLower).asString

/-- The tag-priority classification from `_parse_spec_file`
(`collector.py` lines 63-73): lowercase the tags, then
`skip` > `manual` > default `test`. -/
def classify_tags (tags : List String) : VerificationType :=
  let tags_lower := tags.map strLower
  if "skip" ∈ tags_lower then VerificationType.SKIP
  else if "manual" ∈ tags_lower then VerificationType.MANUAL
  else VerificationType.TEST

/-- The sub-regex `((?:\s*\[\w+\])*)` of `SPEC_PATTERN`: consume the
maximal sequence of `\s*\[\w+\]` units, returning the consumed region and
the rest.  Fuelled structural recursion; fuel at least the length of the
input is always sufficient (each unit consumes at least three
characters). -/
def matchTagsF : Nat → List Char → List Char × List Char
  | 0, cs => ([], cs)
  | fuel+1, cs =>
    let ws := cs.takeWhile isSpaceC
    let r1 := cs.dropWhile isSpaceC
    match r1 with
    | '[' :: r2 =>
      let w := r2.takeWhile isWordC
      let r3 := r2.dropWhile isWordC
      match w, r3 with
      | _ :: _, ']' :: r4 =>
        let tr := matchTagsF fuel r4
        (ws ++ '[' :: (w ++ ']' :: tr.1), tr.2)
      | _, _ => ([], cs)
    | _ => ([], cs)

/-- Function `matchTagsF` with sufficient fuel. -/
def matchTags (cs : List Char) : List Char × List Char := matchTagsF cs.length cs

/-- Python `TAG_PATTERN.findall` (`collector.py`): all non-overlapping matches of
`\[(\w+)\]`, returning the captured words.  Fuelled structural
recursion. -/
def tagFindallF : Nat → List Char → List (List Char)
  | 0, _ => []
  | _+1, [] => []
  | fuel+1, c :: r =>
    if c = '[' then
      let w := r.takeWhile isWordC
      let r2 := r.dropWhile isWordC
      match w, r2 with
      | _ :: _, ']' :: r3 => w :: tagFindallF fuel r3
      | _, _ => tagFindallF fuel r
    else tagFindallF fuel r

/-- Function `tagFindallF` with sufficient fuel. -/
def tagFindall (cs : List Char) : List (List Char) := tagFindallF cs.length cs

/-- The final `\s*(.+?)$` step of `SPEC_PATTERN` applied to the text after
the colon: greedy `\s*`, then the lazy `(.+?)` anchored at end of line,
which needs at least one character (the greedy `\s*` backtracks by one
character when the whole rest is whitespace).  Returns group 3, or `none`
when the rest is empty. -/
def descGroup (d : List Char) : Option (List Char) :=
  if d = [] then none
  else
    let w := d.dropWhile isSpaceC
    if w = [] then some (d.drop (d.length - 1)) else some w

/-- Attempt to match `SPEC_PATTERN` anchored at the start of `cs`,
returning the three captured groups (requirement id, tags region, group 3
of the description).  Greedy sub-matches need no backtracking here because
every repeated class is disjoint from the character that must follow
it. -/
def matchAt (cs : List Char) : Option (List Char × List Char × List Char) :=
  match cs with
  | '*' :: '*' :: r1 =>
    let p := r1.takeWhile isUpperC
    let r2 := r1.dropWhile isUpperC
    match p, r2 with
    | _ :: _, '-' :: r3 =>
      let n := r3.takeWhile isDigitC
      let r4 := r3.dropWhile isDigitC
      match n, r4 with
      | _ :: _, '*' :: '*' :: r5 =>
        let tr := matchTags r5
        match tr.2 with
        | ':' :: r7 =>
          match descGroup r7 with
          | some g3 => some (p ++ '-' :: n, tr.1, g3)
          | none => none
        | _ => none
      | _, _ => none
    | _, _ => none
  | _ => none

/-- Python `SPEC_PATTERN.search` on one line: the leftmost position at which
`matchAt` succeeds. -/
def searchLine : List Char → Option (List Char × List Char × List Char)
  | [] => none
  | c :: r =>
    match matchAt (c :: r) with
    | some g => some g
    | none => searchLine r

/-- Python `str.strip` (ASCII whitespace fragment). -/
def strip (cs : List Char) : List Char :=
  ((cs.dropWhile isSpaceC).reverse.dropWhile isSpaceC).reverse

/-- The per-line body of `_parse_spec_file`: run `SPEC_PATTERN.search` on
the line; on a match build the requirement record from the captured
groups, the file path and the 1-based line number. -/
def parseLine (path : String) (n : Nat) (line : String) : Option SpecRequirement :=
  match searchLine line.toList with
  | none => none
  | some (idc, tagsc, g3) =>
    some { id := idc.asString
           description := (strip g3).asString
           source_file := path
           source_line := n
           verification_type := classify_tags ((tagFindall tagsc).map List.asString) }

/-- The `enumerate(lines, 1)` loop of `_parse_spec_file`. -/
def parseLinesFrom (path : String) : Nat → List String → List SpecRequirement
  | _, [] => []
  | n, l :: ls => (parseLine path n l).toList ++ parseLinesFrom path (n+1) ls

/-- Accumulator loop for `splitNl`. -/
def splitNlAux : List Char → List Char → List String
  | [], acc => [acc.reverse.asString]
  | '\n' :: r, acc => acc.reverse.asString :: splitNlAux r []
  | c :: r, acc => splitNlAux r (c :: acc)

/-- Python `content.split("\n")`: split on every newline, keeping empty
parts (the empty string yields `[""]`). -/
def splitNl (s : String) : List String := splitNlAux s.toList []

/-- Python `_parse_spec_file`: split the file content on newlines and scan each
line, numbering from 1. -/
def parse_spec_file (path : String) (content : String) : List SpecRequirement :=
  parseLinesFrom path 1 (splitNl content)

instance {ε α : Type} [DecidableEq ε] [DecidableEq α] : DecidableEq (Except ε α) := fun a b =>
  match a, b with
  | .error x, .error y =>
    if h : x = y then .isTrue (by rw [h])
    else .isFalse (fun hh => h (Except.error.inj hh))
  | .error _, .ok _ => .isFalse (fun hh => Except.noConfusion hh)
  | .ok _, .error _ => .isFalse (fun hh => Except.noConfusion hh)
  | .ok x, .ok y =>
    if h : x = y then .isTrue (by rw [h])
    else .isFalse (fun hh => h (Except.ok.inj hh))

/-- A markdown file as seen by `collect_specs`: its base name, its path,
and the result of `read_text` (`Except.error` models a raised read
error). -/
structure MDFile where
  name : String
  path : String
  content : Except String String
deriving DecidableEq

/-- The directory handed to `collect_specs`: whether the path exists, and
the files produced by `glob "**/*.md"` in traversal order. -/
structure SpecsDir where
  pathExists : Bool
  mdFiles : List MDFile

/-- Python `md_file.name.startswith("_")`: the base name begins with an
underscore. -/
def nameUnderscored (f : MDFile) : Bool :=
  match f.name.toList with
  | '_' :: _ => true
  | _ => false

/-- The collection loop of `collect_specs`: skip files whose name starts
with an underscore; otherwise read and parse.  A read error propagates
(there is no handler in the source), discarding all records. -/
def collectFrom : List MDFile → Except String (List SpecRequirement)
  | [] => .ok []
  | f :: fs =>
    if nameUnderscored f then collectFrom fs
    else
      match f.content with
      | .error e => .error e
      | .ok c =>
        match collectFrom fs with
        | .error e => .error e
        | .ok rest => .ok (parse_spec_file f.path c ++ rest)

/-- Python `collect_specs`: an absent directory yields the empty list; otherwise
run the collection loop over the globbed files. -/
def collect_specs (d : SpecsDir) : Except String (List SpecRequirement) :=
  if d.pathExists then collectFrom d.mdFiles else .ok []

/-! ## Contracts (`contracts.py`) -/

/-- A Python exception as seen by the enforcement code: either a
`TypeError` (the only class `_check_requires` and `_check_ensures`
catch) or any other exception. -/
inductive PyExc where
  | typeError (msg : String)
  | otherExc (msg : String)
deriving DecidableEq

/-- Python `ContractError` (`contracts.py`): message plus the `spec_id`,
`condition_type` and `condition_index` attributes. -/
structure ContractError where
  message : String
  spec_id : Option String
  condition_type : String
  condition_index : Nat
deriving DecidableEq

/-- A precondition predicate.  Python calls it once with the full
positional and keyword arguments and, after a `TypeError`, retries with
only the positional arguments; both entry points may return a boolean or
raise. -/
structure Condition (A K : Type) where
  callFull : A → K → Except PyExc Bool
  callPos : A → Except PyExc Bool

/-- Python `ContractInfo` (`contracts.py`): the data stored by the `contract`
decorator.  `A`/`K` are the wrapped function's positional/keyword
argument bundles, `R` its result type, `S` the ambient mutable state the
function and the postcondition closures can see. -/
structure ContractInfo (A K R S : Type) where
  spec_id : Option String
  requires : List (Condition A K)
  ensures : List (R → S → Except PyExc Bool)
  func_name : String
  func_module : String

/-- Python `ContractInfo.full_name`. -/
def ContractInfo.full_name (info : ContractInfo A K R S) : String :=
  info.func_module ++ "." ++ info.func_name

/-- Message of the `ContractError` raised when a precondition returns a
falsy value on the full-argument call. -/
def preFailedMsg (info : ContractInfo A K R S) (i : Nat) : String :=
  "Precondition " ++ toString i ++ " failed for " ++ info.full_name

/-- Message of the `ContractError` raised from the `except` branch of
`_check_requires`; `m` is the message of the `TypeError` raised by the
full-argument call. -/
def preRaisedMsg (info : ContractInfo A K R S) (i : Nat) (m : String) : String :=
  "Precondition " ++ toString i ++ " raised error for " ++ info.full_name ++ ": " ++ m

/-- Message of the `ContractError` raised when a postcondition returns a
falsy value. -/
def postFailedMsg (info : ContractInfo A K R S) (i : Nat) : String :=
  "Postcondition " ++ toString i ++ " failed for " ++ info.full_name

/-- Message of the `ContractError` raised when a postcondition raises a
`TypeError` with message `m`. -/
def postRaisedMsg (info : ContractInfo A K R S) (i : Nat) (m : String) : String :=
  "Postcondition " ++ toString i ++ " raised error for " ++ info.full_name ++ ": " ++ m

/-- Result of `_check_requires` / `_check_ensures`: no violation, a
raised `ContractError`, or a non-`TypeError` exception that escapes the
checker uncaught. -/
inductive CheckOutcome where
  | ok
  | viol (e : ContractError)
  | uncaught (e : PyExc)
deriving DecidableEq

/-- The loop of `_check_requires` with explicit index.  A falsy result of
the full call raises the "failed" `ContractError` (not caught by the
`except TypeError` clause).  A `TypeError` triggers the positional-only
retry inside a `try` whose `except Exception` clause turns every failure
of the retry - including the "failed" `ContractError` raised on a falsy
retry result - into the "raised error" `ContractError`.  Any other
exception from the full call escapes uncaught. -/
def checkRequiresFrom (info : ContractInfo A K R S) (args : A) (kwargs : K) :
    Nat → List (Condition A K) → CheckOutcome
  | _, [] => .ok
  | i, c :: rest =>
    match c.callFull args kwargs with
    | .ok b =>
      if b then checkRequiresFrom info args kwargs (i+1) rest
      else .viol ⟨preFailedMsg info i, info.spec_id, "requires", i⟩
    | .error (.typeError m) =>
      match c.callPos args with
      | .ok b =>
        if b then checkRequiresFrom info args kwargs (i+1) rest
        else .viol ⟨preRaisedMsg info i m, info.spec_id, "requires", i⟩
      | .error _ => .viol ⟨preRaisedMsg info i m, info.spec_id, "requires", i⟩
    | .error (.otherExc m) => .uncaught (.otherExc m)

/-- Python `_check_requires`. -/
def check_requires (info : ContractInfo A K R S) (args : A) (kwargs : K) : CheckOutcome :=
  checkRequiresFrom info args kwargs 0 info.requires

/-- The loop of `_check_ensures` with explicit index: each postcondition
receives the produced result (evaluated at the ambient state `s`); a
falsy result or a `TypeError` raises a `ContractError`, any other
exception escapes uncaught. -/
def checkEnsuresFrom (info : ContractInfo A K R S) (r : R) (s : S) :
    Nat → List (R → S → Except PyExc Bool) → CheckOutcome
  | _, [] => .ok
  | i, c :: rest =>
    match c r s with
    | .ok b =>
      if b then checkEnsuresFrom info r s (i+1) rest
      else .viol ⟨postFailedMsg info i, info.spec_id, "ensures", i⟩
    | .error (.typeError m) => .viol ⟨postRaisedMsg info i m, info.spec_id, "ensures", i⟩
    | .error (.otherExc m) => .uncaught (.otherExc m)

/-- Python `_check_ensures`. -/
def check_ensures (info : ContractInfo A K R S) (r : R) (s : S) : CheckOutcome :=
  checkEnsuresFrom info r s 0 info.ensures

/-- Outcome of a call through the contract wrapper: a returned value
(with the final state), a raised `ContractError`, or another raised
exception. -/
inductive CallResult (R S : Type) where
  | ok (result : R) (state : S)
  | contractError (e : ContractError)
  | pyExc (e : PyExc)
deriving DecidableEq

/-- Python `sync_wrapper` (`contracts.py` lines 108-121): check preconditions,
run the wrapped function (a state transformer producing the result and
the new ambient state), check postconditions against the produced result
in the post-body state, and return the result unchanged. -/
def sync_wrapper (info : ContractInfo A K R S) (func : A → K → S → R × S)
    (args : A) (kwargs : K) (s : S) : CallResult R S :=
  match check_requires info args kwargs with
  | .ok =>
    let rs := func args kwargs s
    match check_ensures info rs.1 rs.2 with
    | .ok => .ok rs.1 rs.2
    | .viol e => .contractError e
    | .uncaught e => .pyExc e
  | .viol e => .contractError e
  | .uncaught e => .pyExc e

/-- Python `async_wrapper` (`contracts.py` lines 92-106): textually the same
enforcement sequence as `sync_wrapper`, with the call to the wrapped
function awaited. -/
def async_wrapper (info : ContractInfo A K R S) (func : A → K → S → R × S)
    (args : A) (kwargs : K) (s : S) : CallResult R S :=
  match check_requires info args kwargs with
  | .ok =>
    let rs := func args kwargs s
    match check_ensures info rs.1 rs.2 with
    | .ok => .ok rs.1 rs.2
    | .viol e => .contractError e
    | .uncaught e => .pyExc e
  | .viol e => .contractError e
  | .uncaught e => .pyExc e

/-- The contract registry `_contract_registry`, a Python dict keyed by
spec ID; modelled by its lookup function. -/
def Registry (V : Type) : Type := String → Option V

/-- Python dict assignment `registry[k] = v`. -/
def registrySet (m : Registry V) (k : String) (v : V) : Registry V :=
  fun k2 => if k2 = k then some v else m k2

/-- Python `get_contract_for_spec`: `_contract_registry.get(spec_id)`. -/
def get_contract_for_spec (m : Registry V) (sid : String) : Option V := m sid

/-- The registration step of the `contract` decorator: `if spec:
_contract_registry[spec] = info` - no registration when the spec ID is
absent or the empty string (both falsy in Python). -/
def contract_register (m : Registry V) (spec : Option String) (info : V) : Registry V :=
  match spec with
  | none => m
  | some s => if s = "" then m else registrySet m s info

/-- A sequence of registrations with supplied spec IDs, applied in
order. -/
def registerAll (m : Registry V) (regs : List (String × V)) : Registry V :=
  regs.foldl (fun acc p => contract_register acc (some p.1) p.2) m

/-- Whether the positional-only retry of a precondition returns a truthy
value. -/
def posRetryTrue (c : Condition A K) (a : A) : Bool :=
  match c.callPos a with
  | .ok true => true
  | _ => false

/-- A precondition passes under the source's enforcement: the full call
returns a truthy value, or it raises `TypeError` and the positional-only
retry returns a truthy value. -/
def condPasses (c : Condition A K) (a : A) (k : K) : Bool :=
  match c.callFull a k with
  | .ok b => b
  | .error (.typeError _) => posRetryTrue c a
  | .error (.otherExc _) => false

/-- A precondition ends in a `ContractError` under the source's
enforcement: the full call returns a falsy value, or it raises
`TypeError` and the positional-only retry does not return a truthy
value.  (A non-`TypeError` exception from the full call is neither: it
escapes uncaught.) -/
def condViol (c : Condition A K) (a : A) (k : K) : Bool :=
  match c.callFull a k with
  | .ok b => !b
  | .error (.typeError _) => !posRetryTrue c a
  | .error (.otherExc _) => false

/-- A postcondition passes: it returns a truthy value on the produced
result in the given state. -/
def ensPasses (c : R → S → Except PyExc Bool) (r : R) (s : S) : Bool :=
  match c r s with
  | .ok true => true
  | _ => false

/-! ## Declarative reading of the requirement-line pattern

Used to compare `SPEC_PATTERN.search` with the spec's description of the
pattern ("a bold token `**PREFIX-NUMBER**`, zero or more bracketed tags,
a colon, and a description running to end of line"). -/

/-- A region matched by `(?:\s*\[\w+\])*`: a (possibly empty) sequence of
units, each of which is some whitespace, then a bracketed non-empty word. -/
inductive IsTagsRegion : List Char → Prop where
  | nil : IsTagsRegion []
  | unit (ws w rest : List Char) :
      (∀ c ∈ ws, isSpaceC c = true) → w ≠ [] → (∀ c ∈ w, isWordC c = true) →
      IsTagsRegion rest → IsTagsRegion (ws ++ '[' :: (w ++ ']' :: rest))

/-- Modelled from the spec: the line matches the requirement pattern -
somewhere in the line there is a bold token `**PREFIX-NUMBER**` (prefix =
one or more uppercase letters, number = one or more digits), followed by
zero or more bracketed tags, a colon, and a (non-empty) description
running to the end of the line. -/
def LineMatches (line : String) : Prop :=
  ∃ pre p n t d,
    line.toList = pre ++ '*' :: '*' :: (p ++ '-' :: (n ++ '*' :: '*' :: (t ++ ':' :: d))) ∧
    p ≠ [] ∧ (∀ c ∈ p, isUpperC c = true) ∧
    n ≠ [] ∧ (∀ c ∈ n, isDigitC c = true) ∧
    IsTagsRegion t ∧ d ≠ []

/-- Number of records with the given requirement ID that one globbed file
contributes to a successful collection pass. -/
def fileIdCount (sid : String) (f : MDFile) : Nat :=
  if nameUnderscored f then 0
  else
    match f.content with
    | .ok c => (parse_spec_file f.path c).countP (fun r => r.id = sid)
    | .error _ => 0

/-! ## Concrete instances used by witnesses and counterexamples -/

/-- The precondition `lambda x: x > 0` of the spec's example contract. -/
def posCond : Condition Int Unit :=
  ⟨fun x _ => .ok (decide (x > 0)), fun x => .ok (decide (x > 0))⟩

/-- The example contract `requires=[lambda x: x > 0]` with a linked
requirement ID. -/
def posInfo : ContractInfo Int Unit Int Unit :=
  ⟨some ("REQ-1"), [posCond], [], "positive_only", "m"⟩

/-- The wrapped function `lambda x: x * 2` of the example contract. -/
def doubleBody : Int → Unit → Unit → Int × Unit := fun x _ _ => (x * 2, ())

/-- A precondition that raises a non-`TypeError` exception. -/
def raisingCond : Condition Int Unit :=
  ⟨fun _ _ => .error (.otherExc ("boom")), fun _ => .error (.otherExc ("boom"))⟩

/-- A contract whose only precondition raises a non-`TypeError`
exception. -/
def raisingInfo : ContractInfo Int Unit Int Unit :=
  ⟨some ("REQ-1"), [raisingCond], [], "positive_only", "m"⟩

/-- A wrapped function with a visible side effect: it bumps the ambient
counter state and returns 7. -/
def bumpBody : Unit → Unit → Nat → Nat × Nat := fun _ _ s => (7, s + 1)

/-- A postcondition closure that observes the ambient counter: truthy
exactly when the counter is still 0 (i.e. when the body has not run). -/
def counterZeroPost : Nat → Nat → Except PyExc Bool := fun _ s => .ok (decide (s = 0))

/-- A contract with the counter-observing postcondition. -/
def bumpInfo : ContractInfo Unit Unit Nat Nat :=
  ⟨some ("REQ-5"), [], [counterZeroPost], "incr", "m"⟩

/-- A postcondition that raises a non-`TypeError` exception. -/
def raisingPost : Nat → Nat → Except PyExc Bool := fun _ _ => .error (.otherExc ("post boom"))

/-- A contract whose only postcondition raises a non-`TypeError`
exception. -/
def raisingPostInfo : ContractInfo Unit Unit Nat Nat :=
  ⟨some ("REQ-5"), [], [raisingPost], "incr", "m"⟩

/-- A precondition whose full-argument call raises `TypeError` (arity
mismatch) and whose positional-only retry returns `False`. -/
def retryFalseCond : Condition Nat Unit :=
  ⟨fun _ _ => .error (.typeError ("unexpected keyword argument")), fun _ => .ok false⟩

/-- A contract whose only precondition is `retryFalseCond`. -/
def retryFalseInfo : ContractInfo Nat Unit Nat Unit :=
  ⟨some ("C6-1"), [retryFalseCond], [], "f", "m"⟩

/-- A passing precondition on a pair of integers. -/
def pairCond : Condition (Int × Int) Unit :=
  ⟨fun p _ => .ok (decide (0 ≤ p.1)), fun p => .ok (decide (0 ≤ p.1))⟩

/-- A passing postcondition on the produced integer. -/
def nonNegPost : Int → Unit → Except PyExc Bool := fun r _ => .ok (decide (0 ≤ r))

/-- A contract with one passing precondition and one passing
postcondition. -/
def addInfo : ContractInfo (Int × Int) Unit Int Unit :=
  ⟨some ("REQ-9"), [pairCond], [nonNegPost], "add", "m"⟩

/-- The wrapped addition function. -/
def addBody : Int × Int → Unit → Unit → Int × Unit := fun p _ s => (p.1 + p.2, s)

/-- An unreadable spec file. -/
def badFile : MDFile := ⟨"a.md", "specs/a.md", .error ("disk read failure")⟩

/-- A readable spec file containing one requirement. -/
def goodFile : MDFile := ⟨"b.md", "specs/b.md", .ok ("- **A-1**: desc")⟩

/-- A directory whose first globbed file is unreadable and whose second
is readable. -/
def mixedDir : SpecsDir := ⟨true, [badFile, goodFile]⟩

/-- Two readable files that define the same requirement ID. -/
def dupFile1 : MDFile := ⟨"a.md", "specs/a.md", .ok ("- **DUP-1**: first")⟩

/-- Second file defining the duplicate ID. -/
def dupFile2 : MDFile := ⟨"b.md", "specs/b.md", .ok ("- **DUP-1**: second")⟩

/-- A directory with a duplicated requirement ID across two files. -/
def dupDir : SpecsDir := ⟨true, [dupFile1, dupFile2]⟩

/-- A directory whose only markdown file is underscore-prefixed (and not
even readable). -/
def onlyUnderscoreDir : SpecsDir :=
  ⟨true, [⟨"_index.md", "specs/_index.md", .error ("unreadable")⟩]⟩

/-! ## Lemmas about the enforcement loops -/

theorem checkRequiresFrom_cons (info : ContractInfo A K R S) (a : A) (k : K)
    (i : Nat) (c : Condition A K) (rest : List (Condition A K)) :
    checkRequiresFrom info a k i (c :: rest) =
      match c.callFull a k with
      | .ok b =>
        if b then checkRequiresFrom info a k (i+1) rest
        else .viol ⟨preFailedMsg info i, info.spec_id, "requires", i⟩
      | .error (.typeError m) =>
        match c.callPos a with
        | .ok b =>
          if b then checkRequiresFrom info a k (i+1) rest
          else .viol ⟨preRaisedMsg info i m, info.spec_id, "requires", i⟩
        | .error _ => .viol ⟨preRaisedMsg info i m, info.spec_id, "requires", i⟩
      | .error (.otherExc m) => .uncaught (.otherExc m) := rfl

theorem checkRequiresFrom_all_ok (info : ContractInfo A K R S) (a : A) (k : K) :
    ∀ (l : List (Condition A K)) (i : Nat),
    (∀ c ∈ l, condPasses c a k = true) → checkRequiresFrom info a k i l = .ok := by
  intro l
  induction l with
  | nil => intro i _; rfl
  | cons c t ih =>
    intro i h
    have hc : condPasses c a k = true := h c (List.mem_cons_self c t)
    have ht : ∀ c2 ∈ t, condPasses c2 a k = true :=
      fun c2 hm => h c2 (List.mem_cons_of_mem c hm)
    rw [checkRequiresFrom_cons]
    cases hf : c.callFull a k with
    | ok b =>
      simp only [condPasses, hf] at hc
      subst hc
      simpa using ih (i+1) ht
    | error ex =>
      cases ex with
      | typeError m =>
        simp only [condPasses, hf] at hc
        unfold posRetryTrue at hc
        cases hp : c.callPos a with
        | ok b2 =>
          rw [hp] at hc
          cases b2 with
          | false => exact absurd hc (by simp)
          | true => simpa using ih (i+1) ht
        | error e2 => rw [hp] at hc; cases hc
      | otherExc m => simp only [condPasses, hf] at hc; cases hc

theorem checkRequiresFrom_first_viol (info : ContractInfo A K R S) (a : A) (k : K) :
    ∀ (pre : List (Condition A K)) (c : Condition A K) (rest : List (Condition A K)) (i : Nat),
    (∀ c2 ∈ pre, condPasses c2 a k = true) → condViol c a k = true →
    ∃ e, checkRequiresFrom info a k i (pre ++ c :: rest) = .viol e ∧
      e.spec_id = info.spec_id ∧ e.condition_type = "requires" ∧
      e.condition_index = i + pre.length := by
  intro pre
  induction pre with
  | nil =>
    intro c rest i _ hv
    rw [List.nil_append, checkRequiresFrom_cons]
    cases hf : c.callFull a k with
    | ok b =>
      simp only [condViol, hf] at hv
      cases b with
      | false =>
        exact ⟨⟨preFailedMsg info i, info.spec_id, "requires", i⟩,
          rfl, rfl, rfl, by simp⟩
      | true => cases hv
    | error ex =>
      cases ex with
      | typeError m =>
        simp only [condViol, hf] at hv
        unfold posRetryTrue at hv
        cases hp : c.callPos a with
        | ok b2 =>
          rw [hp] at hv
          cases b2 with
          | false =>
            exact ⟨⟨preRaisedMsg info i m, info.spec_id, "requires", i⟩,
              rfl, rfl, rfl, by simp⟩
          | true => cases hv
        | error e2 =>
          exact ⟨⟨preRaisedMsg info i m, info.spec_id, "requires", i⟩,
            rfl, rfl, rfl, by simp⟩
      | otherExc m => simp only [condViol, hf] at hv; cases hv
  | cons p t ih =>
    intro c rest i hpass hv
    have hp : condPasses p a k = true := hpass p (List.mem_cons_self p t)
    have ht : ∀ c2 ∈ t, condPasses c2 a k = true :=
      fun c2 hm => hpass c2 (List.mem_cons_of_mem p hm)
    obtain ⟨e, he, h1, h2, h3⟩ := ih c rest (i+1) ht hv
    rw [List.cons_append, checkRequiresFrom_cons]
    cases hf : p.callFull a k with
    | ok b =>
      simp only [condPasses, hf] at hp
      subst hp
      exact ⟨e, by simpa using he, h1, h2, by rw [h3]; simp; omega⟩
    | error ex =>
      cases ex with
      | typeError m =>
        simp only [condPasses, hf] at hp
        unfold posRetryTrue at hp
        cases hq : p.callPos a with
        | ok b2 =>
          rw [hq] at hp
          cases b2 with
          | false => exact absurd hp (by simp)
          | true => exact ⟨e, by simpa using he, h1, h2, by rw [h3]; simp; omega⟩
        | error e2 => rw [hq] at hp; cases hp
      | otherExc m => simp only [condPasses, hf] at hp; cases hp

theorem checkEnsuresFrom_cons (info : ContractInfo A K R S) (r : R) (s : S)
    (i : Nat) (c : R → S → Except PyExc Bool) (rest : List (R → S → Except PyExc Bool)) :
    checkEnsuresFrom info r s i (c :: rest) =
      match c r s with
      | .ok b =>
        if b then checkEnsuresFrom info r s (i+1) rest
        else .viol ⟨postFailedMsg info i, info.spec_id, "ensures", i⟩
      | .error (.typeError m) => .viol ⟨postRaisedMsg info i m, info.spec_id, "ensures", i⟩
      | .error (.otherExc m) => .uncaught (.otherExc m) := rfl

theorem checkEnsuresFrom_all_ok (info : ContractInfo A K R S) (r : R) (s : S) :
    ∀ (l : List (R → S → Except PyExc Bool)) (i : Nat),
    (∀ c ∈ l, ensPasses c r s = true) → checkEnsuresFrom info r s i l = .ok := by
  intro l
  induction l with
  | nil => intro i _; rfl
  | cons c t ih =>
    intro i h
    have hc : ensPasses c r s = true := h c (List.mem_cons_self c t)
    have ht : ∀ c2 ∈ t, ensPasses c2 r s = true :=
      fun c2 hm => h c2 (List.mem_cons_of_mem c hm)
    rw [checkEnsuresFrom_cons]
    unfold ensPasses at hc
    cases hf : c r s with
    | ok b =>
      rw [hf] at hc
      cases b with
      | false => cases hc
      | true => simpa using ih (i+1) ht
    | error ex => rw [hf] at hc; cases ex <;> cases hc

theorem checkEnsuresFrom_first_viol (info : ContractInfo A K R S) (r : R) (s : S) :
    ∀ (pre : List (R → S → Except PyExc Bool)) (c : R → S → Except PyExc Bool)
      (rest : List (R → S → Except PyExc Bool)) (i : Nat),
    (∀ c2 ∈ pre, ensPasses c2 r s = true) →
    (c r s = .ok false ∨ ∃ m, c r s = .error (.typeError m)) →
    ∃ e, checkEnsuresFrom info r s i (pre ++ c :: rest) = .viol e ∧
      e.spec_id = info.spec_id ∧ e.condition_type = "ensures" ∧
      e.condition_index = i + pre.length := by
  intro pre
  induction pre with
  | nil =>
    intro c rest i _ hv
    rw [List.nil_append, checkEnsuresFrom_cons]
    rcases hv with hv | ⟨m, hv⟩
    · exact ⟨⟨postFailedMsg info i, info.spec_id, "ensures", i⟩,
        by rw [hv]; rfl, rfl, rfl, by simp⟩
    · exact ⟨⟨postRaisedMsg info i m, info.spec_id, "ensures", i⟩,
        by rw [hv], rfl, rfl, by simp⟩
  | cons p t ih =>
    intro c rest i hpass hv
    have hp : ensPasses p r s = true := hpass p (List.mem_cons_self p t)
    have ht : ∀ c2 ∈ t, ensPasses c2 r s = true :=
      fun c2 hm => hpass c2 (List.mem_cons_of_mem p hm)
    obtain ⟨e, he, h1, h2, h3⟩ := ih c rest (i+1) ht hv
    rw [List.cons_append, checkEnsuresFrom_cons]
    unfold ensPasses at hp
    cases hf : p r s with
    | ok b =>
      rw [hf] at hp
      cases b with
      | false => cases hp
      | true => exact ⟨e, by simpa using he, h1, h2, by rw [h3]; simp; omega⟩
    | error ex => rw [hf] at hp; cases ex <;> cases hp

theorem contract_register_some (V : Type) (m : Registry V) (s : String) (v : V) :
    contract_register m (some s) v = if s = "" then m else registrySet m s v := rfl

theorem registerAll_lookup (V : Type) (regs : List (String × V)) (sid : String) :
    ∀ m0 : Registry V, (∀ p ∈ regs, p.1 ≠ "") →
    get_contract_for_spec (registerAll m0 regs) sid =
      ((regs.reverse.find? (fun p => p.1 = sid)).map Prod.snd).or
        (get_contract_for_spec m0 sid) := by
  induction regs with
  | nil => intro m0 _; rfl
  | cons q t ih =>
    intro m0 hne
    have hq : q.1 ≠ "" := hne q (List.mem_cons_self q t)
    have ht : ∀ p ∈ t, p.1 ≠ "" := fun p hm => hne p (List.mem_cons_of_mem q hm)
    have hstep : registerAll m0 (q :: t) = registerAll (registrySet m0 q.1 q.2) t := by
      unfold registerAll
      simp only [List.foldl_cons]
      rw [contract_register_some, if_neg hq]
    rw [hstep, ih (registrySet m0 q.1 q.2) ht, List.reverse_cons, List.find?_append]
    cases hfind : t.reverse.find? (fun p => p.1 = sid) with
    | some x => simp [Option.or]
    | none =>
      unfold get_contract_for_spec registrySet
      by_cases h : sid = q.1
      · simp [List.find?_cons, h, Option.or]
      · have h2 : ¬ (q.1 = sid) := fun hh => h hh.symm
        simp [List.find?_cons, h, h2, Option.or]

/-! ## Claim theorems: contracts -/

/-- C1 (amended): if every precondition before index `i` passes and the
predicate at `i` returns a falsy value - or raises `TypeError` with the
positional-only retry not returning a truthy value - then the call raises
a `ContractError` carrying the contract's requirement ID, condition type
`requires` and index `i`, and it does so before the wrapped function body
runs (the outcome is the same for every wrapped body).  A precondition
raising a non-`TypeError` exception instead lets that exception propagate
(see the counterexample to the claim as stated). -/
theorem requires_failure_raises_before_body
    (info : ContractInfo A K R S) (f g : A → K → S → R × S) (a : A) (kw : K) (s : S)
    (pre : List (Condition A K)) (c : Condition A K) (rest : List (Condition A K))
    (hsplit : info.requires = pre ++ c :: rest)
    (hpass : ∀ c2 ∈ pre, condPasses c2 a kw = true)
    (hviol : condViol c a kw = true) :
    (∃ e, sync_wrapper info f a kw s = .contractError e ∧
      e.spec_id = info.spec_id ∧ e.condition_type = "requires" ∧
      e.condition_index = pre.length) ∧
    sync_wrapper info f a kw s = sync_wrapper info g a kw s := by
  obtain ⟨e, he, h1, h2, h3⟩ :=
    checkRequiresFrom_first_viol info a kw pre c rest 0 hpass hviol
  have hcr : check_requires info a kw = .viol e := by
    unfold check_requires; rw [hsplit]; exact he
  refine ⟨⟨e, ?_, h1, h2, by simpa using h3⟩, ?_⟩
  · unfold sync_wrapper; rw [hcr]
  · unfold sync_wrapper; rw [hcr]

/-- C1 witness: the contract `requires=[lambda x: x > 0]` raises on the
call with `x = -1` a `ContractError` with the linked requirement ID,
condition type `requires` and index 0, and the call with `x = 5` returns
normally. -/
theorem requires_failure_raises_before_body_witness :
    (∃ e, sync_wrapper posInfo doubleBody (-1) () () = .contractError e ∧
      e.spec_id = posInfo.spec_id ∧ e.condition_type = "requires" ∧
      e.condition_index = 0) ∧
    sync_wrapper posInfo doubleBody 5 () () = .ok 10 () := by
  constructor
  · have h := requires_failure_raises_before_body posInfo doubleBody doubleBody
      (-1) () () [] posCond [] rfl (by simp) (by decide)
    simpa using h.1
  · decide

/-- C1 counterexample to the claim as stated: a precondition that raises
a non-`TypeError` exception does not produce a `ContractError`; the
exception itself escapes the wrapper (the body still never runs). -/
theorem requires_other_exception_escapes :
    raisingCond.callFull (-1) () = .error (.otherExc ("boom")) ∧
    sync_wrapper raisingInfo doubleBody (-1) () () = .pyExc (.otherExc ("boom")) := by
  decide

/-- C5 (amended): when every precondition passes, the postconditions are
evaluated in order against exactly the value produced by the wrapped
function body, in the ambient state left behind by the body (so every
side effect of the body is visible to them); if the postconditions before
index `i` return truthy values and the one at `i` returns a falsy value
or raises `TypeError`, the call raises a `ContractError` with condition
type `ensures` and index `i`.  A postcondition raising a non-`TypeError`
exception instead lets that exception propagate (see the
counterexample). -/
theorem postcondition_checked_after_body
    (info : ContractInfo A K R S) (f : A → K → S → R × S) (a : A) (kw : K) (s : S)
    (r : R) (s1 : S)
    (pre : List (R → S → Except PyExc Bool)) (c : R → S → Except PyExc Bool)
    (rest : List (R → S → Except PyExc Bool))
    (hpre : ∀ c2 ∈ info.requires, condPasses c2 a kw = true)
    (hbody : f a kw s = (r, s1))
    (hsplit : info.ensures = pre ++ c :: rest)
    (hpass : ∀ c2 ∈ pre, ensPasses c2 r s1 = true)
    (hfail : c r s1 = .ok false ∨ ∃ m, c r s1 = .error (.typeError m)) :
    ∃ e, sync_wrapper info f a kw s = .contractError e ∧
      e.spec_id = info.spec_id ∧ e.condition_type = "ensures" ∧
      e.condition_index = pre.length := by
  have hcr : check_requires info a kw = .ok :=
    checkRequiresFrom_all_ok info a kw info.requires 0 hpre
  obtain ⟨e, he, h1, h2, h3⟩ :=
    checkEnsuresFrom_first_viol info r s1 pre c rest 0 hpass hfail
  have hce : check_ensures info r s1 = .viol e := by
    unfold check_ensures; rw [hsplit]; exact he
  refine ⟨e, ?_, h1, h2, by simpa using h3⟩
  unfold sync_wrapper
  rw [hcr, hbody]
  simpa using congrArg (fun o => match o with
    | CheckOutcome.ok => CallResult.ok r s1
    | CheckOutcome.viol e => CallResult.contractError e
    | CheckOutcome.uncaught e2 => CallResult.pyExc e2) hce

/-- C5 witness: the wrapped body bumps an ambient counter from 0 to 1 and
returns 7; the single postcondition receives the produced value in the
post-body state - it returns a truthy value exactly when the counter is
still 0, and the call indeed raises the `ensures` `ContractError` at
index 0, proving the body's side effect was visible before the
postcondition ran. -/
theorem postcondition_checked_after_body_witness :
    ∃ e, sync_wrapper bumpInfo bumpBody () () 0 = .contractError e ∧
      e.spec_id = bumpInfo.spec_id ∧ e.condition_type = "ensures" ∧
      e.condition_index = 0 := by
  have h := postcondition_checked_after_body bumpInfo bumpBody () () 0 7 1
    [] counterZeroPost [] (by simp [bumpInfo]) rfl rfl (by simp)
    (Or.inl (by decide))
  simpa using h

/-- C5 counterexample to the claim as stated: a postcondition raising a
non-`TypeError` exception does not produce a `ContractError`; the
exception escapes the wrapper. -/
theorem ensures_other_exception_escapes :
    raisingPost 7 1 = .error (.otherExc ("post boom")) ∧
    sync_wrapper raisingPostInfo bumpBody () () 0 = .pyExc (.otherExc ("post boom")) := by
  decide

/-- C6 (code behavior at the failing input): a precondition whose
full-argument call raises `TypeError` and whose positional-only retry
returns `False` is reported with the "raised error" message - the
`ContractError` that the source tries to raise for a plain retry failure
is swallowed by the retry's own `except Exception` handler - instead of
the "failed" message the claim (and the spec's "retry ... before treating
it as an error") prescribes.  The requirement ID, condition type and
index are still those of a normal precondition failure. -/
theorem retry_false_reported_as_raised_error :
    check_requires retryFalseInfo 0 () =
      .viol ⟨"Precondition 0 raised error for m.f: unexpected keyword argument",
             some ("C6-1"), "requires", 0⟩ ∧
    ("Precondition 0 raised error for m.f: unexpected keyword argument" ≠
      "Precondition 0 failed for m.f") ∧
    preFailedMsg retryFalseInfo 0 = "Precondition 0 failed for m.f" := by
  refine ⟨by decide, by decide, by decide⟩

/-- C9: when every precondition passes (directly or through the
positional-only retry) and every postcondition returns a truthy value on
the produced result, both the synchronous and the asynchronous wrapper
return exactly the value (and ambient state) produced by the wrapped
function, unchanged. -/
theorem wrapper_returns_result_unchanged
    (info : ContractInfo A K R S) (f : A → K → S → R × S) (a : A) (kw : K) (s : S)
    (hreq : ∀ c ∈ info.requires, condPasses c a kw = true)
    (hens : ∀ c ∈ info.ensures, ensPasses c (f a kw s).1 (f a kw s).2 = true) :
    sync_wrapper info f a kw s = .ok (f a kw s).1 (f a kw s).2 ∧
    async_wrapper info f a kw s = .ok (f a kw s).1 (f a kw s).2 := by
  have hcr : check_requires info a kw = .ok :=
    checkRequiresFrom_all_ok info a kw info.requires 0 hreq
  have hce : check_ensures info (f a kw s).1 (f a kw s).2 = .ok :=
    checkEnsuresFrom_all_ok info (f a kw s).1 (f a kw s).2 info.ensures 0 hens
  constructor
  · unfold sync_wrapper
    rw [hcr]
    simpa using congrArg (fun o => match o with
      | CheckOutcome.ok => CallResult.ok (f a kw s).1 (f a kw s).2
      | CheckOutcome.viol e => CallResult.contractError e
      | CheckOutcome.uncaught e2 => CallResult.pyExc e2) hce
  · unfold async_wrapper
    rw [hcr]
    simpa using congrArg (fun o => match o with
      | CheckOutcome.ok => CallResult.ok (f a kw s).1 (f a kw s).2
      | CheckOutcome.viol e => CallResult.contractError e
      | CheckOutcome.uncaught e2 => CallResult.pyExc e2) hce

/-- C9 witness: a contract with one passing precondition and one passing
postcondition around addition returns the sum unchanged, through both
wrappers. -/
theorem wrapper_returns_result_unchanged_witness :
    sync_wrapper addInfo addBody (2, 3) () () = .ok 5 () ∧
    async_wrapper addInfo addBody (2, 3) () () = .ok 5 () := by
  have h := wrapper_returns_result_unchanged addInfo addBody (2, 3) () ()
    (by decide) (by decide)
  exact ⟨h.1.trans (by decide), h.2.trans (by decide)⟩

/-- C7: dict registration is last-writer-wins - after any sequence of
registrations with (truthy) requirement IDs, looking up an ID returns
exactly the metadata of the last registration for that ID (falling back
to the prior registry contents when the ID was never registered); and a
single registration with a truthy ID records its metadata under that
ID. -/
theorem registry_last_registration_wins (V : Type) (m0 : Registry V)
    (regs : List (String × V)) (sid : String) (v : V) (m : Registry V)
    (hne : ∀ p ∈ regs, p.1 ≠ "") (hsid : sid ≠ "") :
    get_contract_for_spec (registerAll m0 regs) sid =
      ((regs.reverse.find? (fun p => p.1 = sid)).map Prod.snd).or
        (get_contract_for_spec m0 sid) ∧
    get_contract_for_spec (contract_register m (some sid) v) sid = some v := by
  constructor
  · exact registerAll_lookup V regs sid m0 hne
  · rw [contract_register_some, if_neg hsid]
    unfold get_contract_for_spec registrySet
    simp

/-- C7 witness: registering 1 under `A-1`, then 2 under `B-2`, then 3
under `A-1` into an empty registry makes the lookup of `A-1` return
exactly the last value 3. -/
theorem registry_last_registration_wins_witness :
    get_contract_for_spec
      (registerAll (fun _ => none) [("A-1", 1), ("B-2", 2), ("A-1", 3)]) ("A-1") =
      some 3 := by
  have h := (registry_last_registration_wins Nat (fun _ => none)
    [("A-1", 1), ("B-2", 2), ("A-1", 3)] ("A-1") 0 (fun _ => none)
    (by decide) (by decide)).1
  rw [h]
  decide

/-! ## Claim theorems: collector -/

/-- C2: tag classification is a total priority.  For any tag lists
related by a permutation the classification agrees (order independence);
replacing every tag by a variant with the same lowercasing leaves the
classification unchanged (case insensitivity); a tag lowercasing to
`skip` forces `SKIP` no matter what else is present; a tag recognized as
neither `skip` nor `manual` never changes the classification; with no
`skip` but some `manual` the result is `MANUAL`; with neither the result
is `TEST`. -/
theorem tag_priority_classification (tags tags2 : List String)
    (hperm : tags.Perm tags2) :
    classify_tags tags = classify_tags tags2 ∧
    (∀ g : String → String, (∀ u, strLower (g u) = strLower u) →
      classify_tags (tags.map g) = classify_tags tags) ∧
    (∀ t, strLower t = "skip" → classify_tags (t :: tags) = VerificationType.SKIP) ∧
    (∀ t, strLower t ≠ "skip" → strLower t ≠ "manual" →
      classify_tags (t :: tags) = classify_tags tags) ∧
    ("skip" ∉ tags.map strLower → "manual" ∈ tags.map strLower →
      classify_tags tags = VerificationType.MANUAL) ∧
    ((∀ u ∈ tags, strLower u ≠ "skip" ∧ strLower u ≠ "manual") →
      classify_tags tags = VerificationType.TEST) := by
  have hmem : ∀ x : String, x ∈ tags.map strLower ↔ x ∈ tags2.map strLower :=
    fun x => (hperm.map strLower).mem_iff
  refine ⟨?_, ?_, ?_, ?_, ?_, ?_⟩
  · by_cases h1 : "skip" ∈ tags.map strLower
    · have h1b := (hmem "skip").mp h1
      simp [classify_tags, h1, h1b]
    · have h1b : "skip" ∉ tags2.map strLower := fun hh => h1 ((hmem "skip").mpr hh)
      by_cases h2 : "manual" ∈ tags.map strLower
      · have h2b := (hmem "manual").mp h2
        simp [classify_tags, h1, h1b, h2, h2b]
      · have h2b : "manual" ∉ tags2.map strLower := fun hh => h2 ((hmem "manual").mpr hh)
        simp [classify_tags, h1, h1b, h2, h2b]
  · intro g hg
    have hmap : (tags.map g).map strLower = tags.map strLower := by
      rw [List.map_map]
      exact List.map_congr_left (fun u _ => hg u)
    simp only [classify_tags, hmap]
  · intro t ht
    simp [classify_tags, List.mem_cons, ht]
  · intro t h1 h2
    have h1s : ¬ ("skip" = strLower t) := fun hh => h1 hh.symm
    have h2s : ¬ ("manual" = strLower t) := fun hh => h2 hh.symm
    simp [classify_tags, List.mem_cons, h1s, h2s]
  · intro h1 h2
    simp [classify_tags, h1, h2]
  · intro h
    have h1 : "skip" ∉ tags.map strLower := by
      intro hh
      obtain ⟨u, hu, he⟩ := List.mem_map.mp hh
      exact (h u hu).1 he
    have h2 : "manual" ∉ tags.map strLower := by
      intro hh
      obtain ⟨u, hu, he⟩ := List.mem_map.mp hh
      exact (h u hu).2 he
    simp [classify_tags, h1, h2]

/-- C2 witness: `[SKIP]` and `[manual]` in either order classify as
`SKIP`, never as `MANUAL`. -/
theorem tag_priority_classification_witness :
    classify_tags ["SKIP", "manual"] = classify_tags ["manual", "SKIP"] ∧
    classify_tags ["manual", "SKIP"] = VerificationType.SKIP := by
  have h := tag_priority_classification ["SKIP", "manual"] ["manual", "SKIP"]
    (List.Perm.swap ("manual") ("SKIP") [])
  exact ⟨h.1, by decide⟩

theorem collectFrom_cons (f : MDFile) (fs : List MDFile) :
    collectFrom (f :: fs) =
      if nameUnderscored f then collectFrom fs
      else
        match f.content with
        | .error e => .error e
        | .ok c =>
          match collectFrom fs with
          | .error e => .error e
          | .ok rest => .ok (parse_spec_file f.path c ++ rest) := rfl

theorem collectFrom_error_of_unreadable :
    ∀ (fs : List MDFile) (f : MDFile) (e : String), f ∈ fs →
    nameUnderscored f = false → f.content = .error e →
    ∃ msg, collectFrom fs = .error msg := by
  intro fs
  induction fs with
  | nil => intro f e hf _ _; cases hf
  | cons g t ih =>
    intro f e hf hu he
    rw [collectFrom_cons]
    by_cases hg : nameUnderscored g = true
    · rw [if_pos hg]
      rcases List.mem_cons.mp hf with rfl | hmem
      · rw [hu] at hg; cases hg
      · exact ih f e hmem hu he
    · rw [if_neg hg]
      rcases List.mem_cons.mp hf with rfl | hmem
      · rw [he]
        exact ⟨e, rfl⟩
      · cases hc : g.content with
        | error e2 => exact ⟨e2, rfl⟩
        | ok c =>
          obtain ⟨msg, hm⟩ := ih f e hmem hu he
          rw [hm]
          exact ⟨msg, rfl⟩

/-- C3 (amended): when reading one (non-underscore-prefixed) globbed file
fails, `collect_specs` does not return partial results: the read error
propagates out of the collection loop and no record - not even from
readable files - is returned. -/
theorem unreadable_file_aborts_collection (d : SpecsDir) (f : MDFile) (e : String)
    (hex : d.pathExists = true) (hf : f ∈ d.mdFiles)
    (hu : nameUnderscored f = false) (he : f.content = .error e) :
    ∃ msg, collect_specs d = .error msg := by
  unfold collect_specs
  rw [hex, if_pos rfl]
  exact collectFrom_error_of_unreadable d.mdFiles f e hf hu he

/-- C3 witness: a directory whose first file is unreadable makes
`collect_specs` raise. -/
theorem unreadable_file_aborts_collection_witness :
    ∃ msg, collect_specs mixedDir = .error msg :=
  unreadable_file_aborts_collection mixedDir badFile ("disk read failure") rfl
    (by decide) (by decide) (by decide)

/-- C3 counterexample to the claim as stated: in a directory with one
unreadable file and one readable file holding a requirement, collection
aborts with the read error and returns none of the records the readable
file would have contributed. -/
theorem readable_records_lost_on_failure :
    (parse_spec_file ("specs/b.md") ("- **A-1**: desc")).length = 1 ∧
    collect_specs mixedDir = .error ("disk read failure") := by
  decide

theorem collectFrom_countP :
    ∀ (fs : List MDFile) (l : List SpecRequirement) (sid : String),
    collectFrom fs = .ok l →
    l.countP (fun r => r.id = sid) = (fs.map (fileIdCount sid)).sum := by
  intro fs
  induction fs with
  | nil =>
    intro l sid h
    cases h
    simp
  | cons f t ih =>
    intro l sid h
    rw [collectFrom_cons] at h
    by_cases hu : nameUnderscored f = true
    · rw [if_pos hu] at h
      simp [fileIdCount, hu, ih l sid h]
    · rw [if_neg hu] at h
      have hb : nameUnderscored f = false := by
        revert hu; cases nameUnderscored f <;> simp
      cases hc : f.content with
      | error e => rw [hc] at h; cases h
      | ok c =>
        rw [hc] at h
        cases hrec : collectFrom t with
        | error e => rw [hrec] at h; cases h
        | ok rest =>
          rw [hrec] at h
          cases h
          rw [List.countP_append]
          simp [fileIdCount, hb, hc, ih rest sid hrec]

/-- C8: a successful collection pass never merges records - for every
requirement ID, the number of returned records bearing that ID is the sum
over all globbed (non-underscore, readable) files of the number of
records with that ID extracted from each file; in particular an ID
appearing in two different files is retained as two separate records. -/
theorem duplicate_ids_kept_separate (d : SpecsDir) (l : List SpecRequirement)
    (sid : String) (h : collect_specs d = .ok l) (hex : d.pathExists = true) :
    l.countP (fun r => r.id = sid) = (d.mdFiles.map (fileIdCount sid)).sum := by
  unfold collect_specs at h
  rw [hex, if_pos rfl] at h
  exact collectFrom_countP d.mdFiles l sid h

/-- C8 witness: the ID `DUP-1` extracted from two different files yields
two records, one per file. -/
theorem duplicate_ids_kept_separate_witness :
    List.countP (fun r => r.id = ("DUP-1"))
      ([⟨"DUP-1", "first", "specs/a.md", 1, VerificationType.TEST⟩,
        ⟨"DUP-1", "second", "specs/b.md", 1, VerificationType.TEST⟩] :
        List SpecRequirement) =
      (dupDir.mdFiles.map (fileIdCount ("DUP-1"))).sum ∧
    (dupDir.mdFiles.map (fileIdCount ("DUP-1"))).sum = 2 := by
  refine ⟨duplicate_ids_kept_separate dupDir _ ("DUP-1") (by decide) rfl, by decide⟩

theorem collectFrom_all_underscored :
    ∀ fs : List MDFile, (∀ f ∈ fs, nameUnderscored f = true) →
    collectFrom fs = .ok [] := by
  intro fs
  induction fs with
  | nil => intro _; rfl
  | cons f t ih =>
    intro h
    rw [collectFrom_cons, if_pos (h f (List.mem_cons_self f t))]
    exact ih (fun f2 hm => h f2 (List.mem_cons_of_mem f hm))

theorem collectFrom_filter_underscored :
    ∀ fs : List MDFile,
    collectFrom fs = collectFrom (fs.filter (fun f => !nameUnderscored f)) := by
  intro fs
  induction fs with
  | nil => rfl
  | cons f t ih =>
    by_cases hu : nameUnderscored f = true
    · rw [collectFrom_cons, if_pos hu, List.filter_cons_of_neg (by simp [hu])]
      exact ih
    · have hb : nameUnderscored f = false := by
        revert hu; cases nameUnderscored f <;> simp
      rw [List.filter_cons_of_pos (by simp [hb]), collectFrom_cons, collectFrom_cons,
        if_neg hu, if_neg hu, ih]

/-- C10: `collect_specs` on a non-existent path returns the empty list
without raising; it returns the empty list without raising on a directory
whose markdown files are all underscore-prefixed (readable or not); and
in general underscore-prefixed files are never parsed - the collection
result is unchanged when they are removed from the directory
beforehand. -/
theorem collect_specs_empty_cases (d : SpecsDir) :
    (d.pathExists = false → collect_specs d = .ok []) ∧
    ((∀ f ∈ d.mdFiles, nameUnderscored f = true) → collect_specs d = .ok []) ∧
    collect_specs d =
      collect_specs ⟨d.pathExists, d.mdFiles.filter (fun f => !nameUnderscored f)⟩ := by
  refine ⟨?_, ?_, ?_⟩
  · intro h
    unfold collect_specs
    rw [h]
    rfl
  · intro h
    unfold collect_specs
    cases he : d.pathExists with
    | false => rfl
    | true =>
      rw [if_pos rfl]
      exact collectFrom_all_underscored d.mdFiles h
  · unfold collect_specs
    cases he : d.pathExists with
    | false => rfl
    | true =>
      rw [if_pos rfl, if_pos rfl]
      exact collectFrom_filter_underscored d.mdFiles

/-- C10 witness: a directory whose only markdown file is
underscore-prefixed (and unreadable) yields the empty list without
raising. -/
theorem collect_specs_empty_cases_witness :
    collect_specs onlyUnderscoreDir = .ok [] :=
  (collect_specs_empty_cases onlyUnderscoreDir).2.1 (by decide)

/-! ## Lemmas about the pattern matcher -/

theorem takeWhile_app (p : Char → Bool) (xs : List Char) (y : Char) (ys : List Char)
    (h1 : ∀ x ∈ xs, p x = true) (h2 : p y = false) :
    (xs ++ y :: ys).takeWhile p = xs ∧ (xs ++ y :: ys).dropWhile p = y :: ys := by
  induction xs with
  | nil =>
    constructor
    · simp [List.takeWhile_cons_of_neg, h2]
    · simp [List.dropWhile_cons_of_neg, h2]
  | cons a t ih =>
    have ha : p a = true := h1 a (List.mem_cons_self a t)
    have ht : ∀ x ∈ t, p x = true := fun x hm => h1 x (List.mem_cons_of_mem a hm)
    obtain ⟨ihtw, ihdw⟩ := ih ht
    constructor
    · simp only [List.cons_append, List.takeWhile_cons_of_pos ha, ihtw]
    · simp only [List.cons_append, List.dropWhile_cons_of_pos ha, ihdw]

theorem matchTagsF_succ (fuel : Nat) (cs : List Char) :
    matchTagsF (fuel+1) cs =
      match cs.dropWhile isSpaceC with
      | '[' :: r2 =>
        match r2.takeWhile isWordC, r2.dropWhile isWordC with
        | _ :: _, ']' :: r4 =>
          ((cs.takeWhile isSpaceC) ++
            '[' :: (r2.takeWhile isWordC ++ ']' :: (matchTagsF fuel r4).1),
           (matchTagsF fuel r4).2)
        | _, _ => ([], cs)
      | _ => ([], cs) := rfl

theorem matchTagsF_sound :
    ∀ (fuel : Nat) (cs t r : List Char),
    matchTagsF fuel cs = (t, r) → cs = t ++ r ∧ IsTagsRegion t := by
  intro fuel
  induction fuel with
  | zero =>
    intro cs t r h
    cases h
    exact ⟨rfl, IsTagsRegion.nil⟩
  | succ fuel ih =>
    intro cs t r h
    rw [matchTagsF_succ] at h
    split at h
    case _ r2 heq =>
      split at h
      case _ w0 wt r4 heqw heqd =>
        cases h
        obtain ⟨hsplit, hreg⟩ := ih r4 (matchTagsF fuel r4).1 (matchTagsF fuel r4).2 rfl
        have hcs : cs = cs.takeWhile isSpaceC ++ '[' :: r2 := by
          conv_lhs => rw [← List.takeWhile_append_dropWhile (p := isSpaceC) (l := cs)]
          rw [heq]
        constructor
        · have hr2 : r2 = (w0 :: wt) ++ ']' :: r4 := by
            conv_lhs => rw [← List.takeWhile_append_dropWhile (p := isWordC) (l := r2)]
            rw [heqw, heqd]
          rw [heqw]
          conv_lhs => rw [hcs, hr2, hsplit]
          simp
        · refine IsTagsRegion.unit _ _ _ ?_ (by rw [heqw]; simp) ?_ hreg
          · intro c hm
            exact List.mem_takeWhile_imp hm
          · intro c hm
            exact List.mem_takeWhile_imp hm
      case _ hnomatch =>
        cases h
        exact ⟨rfl, IsTagsRegion.nil⟩
    case _ hdef =>
      cases h
      exact ⟨rfl, IsTagsRegion.nil⟩

theorem matchTagsF_complete :
    ∀ (t : List Char), IsTagsRegion t → ∀ (dd : List Char) (fl : Nat),
    (t ++ ':' :: dd).length ≤ fl → matchTagsF fl (t ++ ':' :: dd) = (t, ':' :: dd) := by
  intro t ht
  induction ht with
  | nil =>
    intro dd fl hlen
    cases fl with
    | zero => simp at hlen
    | succ k =>
      rw [List.nil_append, matchTagsF_succ]
      split
      case _ r2 heq =>
        rw [List.dropWhile_cons_of_neg (by decide)] at heq
        cases heq
      case _ hdef => rfl
  | unit ws w rest hws hwne hword hrest ih =>
    intro dd fl hlen
    have hcs : (ws ++ '[' :: (w ++ ']' :: rest)) ++ ':' :: dd
        = ws ++ '[' :: (w ++ ']' :: (rest ++ ':' :: dd)) := by simp
    rw [hcs] at hlen ⊢
    obtain ⟨htw, hdw⟩ :=
      takeWhile_app isSpaceC ws '[' (w ++ ']' :: (rest ++ ':' :: dd)) hws (by decide)
    obtain ⟨htw2, hdw2⟩ :=
      takeWhile_app isWordC w ']' (rest ++ ':' :: dd) hword (by decide)
    cases fl with
    | zero =>
      exfalso
      simp [List.length_append] at hlen
    | succ k =>
      rw [matchTagsF_succ]
      split
      case _ r2 heq =>
        rw [hdw] at heq
        cases heq
        split
        case _ w0 wt r4 heqw heqd =>
          rw [htw2] at heqw
          rw [hdw2] at heqd
          cases heqw
          cases heqd
          have hk : (rest ++ ':' :: dd).length ≤ k := by
            simp [List.length_append] at hlen ⊢
            omega
          rw [ih dd k hk, htw, htw2]
        case _ hnomatch =>
          exfalso
          cases w with
          | nil => exact hwne rfl
          | cons a w2 =>
            exact hnomatch a w2 (rest ++ ':' :: dd) htw2 hdw2
      case _ hdef =>
        exfalso
        exact hdef (w ++ ']' :: (rest ++ ':' :: dd)) hdw

theorem matchAt_eq (cs : List Char) :
    matchAt cs =
      match cs with
      | '*' :: '*' :: r1 =>
        match r1.takeWhile isUpperC, r1.dropWhile isUpperC with
        | _ :: _, '-' :: r3 =>
          match r3.takeWhile isDigitC, r3.dropWhile isDigitC with
          | _ :: _, '*' :: '*' :: r5 =>
            match (matchTags r5).2 with
            | ':' :: r7 =>
              match descGroup r7 with
              | some g3 =>
                some (r1.takeWhile isUpperC ++ '-' :: r3.takeWhile isDigitC,
                      (matchTags r5).1, g3)
              | none => none
            | _ => none
          | _, _ => none
        | _, _ => none
      | _ => none := rfl

theorem descGroup_some_ne_nil (d g3 : List Char) (h : descGroup d = some g3) : d ≠ [] := by
  intro hd
  rw [hd] at h
  cases h

theorem matchAt_sound (cs idc tc g3 : List Char)
    (h : matchAt cs = some (idc, tc, g3)) :
    ∃ p n d, cs = '*' :: '*' :: (p ++ '-' :: (n ++ '*' :: '*' :: (tc ++ ':' :: d))) ∧
      p ≠ [] ∧ (∀ c ∈ p, isUpperC c = true) ∧ n ≠ [] ∧ (∀ c ∈ n, isDigitC c = true) ∧
      IsTagsRegion tc ∧ d ≠ [] ∧ idc = p ++ '-' :: n ∧ descGroup d = some g3 := by
  rw [matchAt_eq] at h
  split at h
  case _ r1 =>
    split at h
    case _ p0 pt r3 heqp heqr2 =>
      split at h
      case _ n0 nt r5 heqn heqr4 =>
        split at h
        case _ r7 heq5 =>
          split at h
          case _ g3b heq6 =>
            cases h
            obtain ⟨hsplit5, hreg⟩ :=
              matchTagsF_sound r5.length r5 (matchTags r5).1 (matchTags r5).2 rfl
            refine ⟨r1.takeWhile isUpperC, r3.takeWhile isDigitC, r7,
              ?_, ?_, ?_, ?_, ?_, hreg, descGroup_some_ne_nil r7 g3 heq6, rfl, heq6⟩
            · have hr1 : r1 = r1.takeWhile isUpperC ++ '-' :: r3 := by
                conv_lhs => rw [← List.takeWhile_append_dropWhile (p := isUpperC) (l := r1)]
                rw [heqr2]
              have hr3 : r3 = r3.takeWhile isDigitC ++ '*' :: '*' :: r5 := by
                conv_lhs => rw [← List.takeWhile_append_dropWhile (p := isDigitC) (l := r3)]
                rw [heqr4]
              have hr5 : r5 = (matchTags r5).1 ++ ':' :: r7 := by
                conv_lhs => rw [hsplit5]
                rw [heq5]
              have h3 : r3 = r3.takeWhile isDigitC ++
                  '*' :: '*' :: ((matchTags r5).1 ++ ':' :: r7) := by
                conv_lhs => rw [hr3]
                exact congrArg (fun l => r3.takeWhile isDigitC ++ '*' :: '*' :: l) hr5
              have hchain : r1 = r1.takeWhile isUpperC ++
                  '-' :: (r3.takeWhile isDigitC ++ '*' :: '*' :: ((matchTags r5).1 ++ ':' :: r7)) := by
                conv_lhs => rw [hr1]
                exact congrArg (fun l => r1.takeWhile isUpperC ++ '-' :: l) h3
              exact congrArg (fun l => '*' :: '*' :: l) hchain
            · rw [heqp]; simp
            · intro c hm; exact List.mem_takeWhile_imp hm
            · rw [heqn]; simp
            · intro c hm; exact List.mem_takeWhile_imp hm
          case _ => cases h
        case _ => cases h
      case _ => cases h
    case _ => cases h
  case _ => cases h

theorem matchAt_complete (p n t d : List Char)
    (hp : p ≠ []) (hpu : ∀ c ∈ p, isUpperC c = true)
    (hn : n ≠ []) (hnd : ∀ c ∈ n, isDigitC c = true)
    (ht : IsTagsRegion t) (hd : d ≠ []) :
    ∃ g3, matchAt ('*' :: '*' :: (p ++ '-' :: (n ++ '*' :: '*' :: (t ++ ':' :: d)))) =
      some (p ++ '-' :: n, t, g3) ∧ descGroup d = some g3 := by
  obtain ⟨htwp, hdwp⟩ :=
    takeWhile_app isUpperC p '-' (n ++ '*' :: '*' :: (t ++ ':' :: d)) hpu (by decide)
  obtain ⟨htwn, hdwn⟩ :=
    takeWhile_app isDigitC n '*' ('*' :: (t ++ ':' :: d)) hnd (by decide)
  have hmt : matchTags (t ++ ':' :: d) = (t, ':' :: d) :=
    matchTagsF_complete t ht d ((t ++ ':' :: d).length) (Nat.le_refl _)
  have hdg : ∃ g3, descGroup d = some g3 := by
    by_cases hw : d.dropWhile isSpaceC = []
    · exact ⟨d.drop (d.length - 1), by unfold descGroup; rw [if_neg hd]; simp [hw]⟩
    · exact ⟨d.dropWhile isSpaceC, by unfold descGroup; rw [if_neg hd]; simp [hw]⟩
  obtain ⟨g3, hdg⟩ := hdg
  refine ⟨g3, ?_, hdg⟩
  cases p with
  | nil => exact absurd rfl hp
  | cons p0 pt =>
    cases n with
    | nil => exact absurd rfl hn
    | cons n0 nt =>
      rw [matchAt_eq]
      simp only [htwp, hdwp, htwn, hdwn, hmt, hdg]

theorem searchLine_of_suffix :
    ∀ (pre suf : List Char) (g : List Char × List Char × List Char),
    matchAt suf = some g → ∃ g2, searchLine (pre ++ suf) = some g2 := by
  intro pre
  induction pre with
  | nil =>
    intro suf g h
    cases suf with
    | nil => rw [matchAt_eq] at h; cases h
    | cons c r =>
      rw [List.nil_append]
      unfold searchLine
      rw [h]
      exact ⟨g, rfl⟩
  | cons a pre2 ih =>
    intro suf g h
    rw [List.cons_append]
    unfold searchLine
    cases hm : matchAt (a :: (pre2 ++ suf)) with
    | some g0 => exact ⟨g0, rfl⟩
    | none =>
      obtain ⟨g2, hg2⟩ := ih suf g h
      rw [hg2]
      exact ⟨g2, rfl⟩

theorem searchLine_sound :
    ∀ (cs : List Char) (g : List Char × List Char × List Char),
    searchLine cs = some g → ∃ pre suf, cs = pre ++ suf ∧ matchAt suf = some g := by
  intro cs
  induction cs with
  | nil => intro g h; cases h
  | cons c r ih =>
    intro g h
    unfold searchLine at h
    cases hm : matchAt (c :: r) with
    | some g0 =>
      rw [hm] at h
      cases h
      exact ⟨[], c :: r, rfl, hm⟩
    | none =>
      rw [hm] at h
      obtain ⟨pre, suf, hsplit, hmat⟩ := ih g h
      exact ⟨c :: pre, suf, by rw [hsplit]; rfl, hmat⟩

theorem dropWhile_dropWhile (p : Char → Bool) (l : List Char) :
    (l.dropWhile p).dropWhile p = l.dropWhile p := by
  induction l with
  | nil => rfl
  | cons a t ih =>
    by_cases h : p a = true
    · rw [List.dropWhile_cons_of_pos h]
      exact ih
    · rw [List.dropWhile_cons_of_neg h, List.dropWhile_cons_of_neg h]

theorem drop_last_singleton :
    ∀ (d : List Char), d ≠ [] → ∃ c, d.drop (d.length - 1) = [c] ∧ c ∈ d := by
  intro d
  induction d with
  | nil => intro h; exact absurd rfl h
  | cons a t ih =>
    intro _
    cases t with
    | nil => exact ⟨a, rfl, by simp⟩
    | cons b t2 =>
      obtain ⟨c, hc, hm⟩ := ih (by simp)
      have h2 : (b :: t2 : List Char).length - 1 = t2.length := by simp
      rw [h2] at hc
      refine ⟨c, ?_, by simp [List.mem_cons.mp hm]⟩
      have h3 : (a :: b :: t2 : List Char).length - 1 = t2.length + 1 := by simp
      rw [h3, List.drop_succ_cons]
      exact hc

theorem strip_descGroup (d g3 : List Char) (h : descGroup d = some g3) :
    strip g3 = strip d := by
  have hd : d ≠ [] := descGroup_some_ne_nil d g3 h
  unfold descGroup at h
  rw [if_neg hd] at h
  by_cases hw : d.dropWhile isSpaceC = []
  · rw [if_pos hw] at h
    cases h
    obtain ⟨c, hc, hm⟩ := drop_last_singleton d hd
    have hsp : ∀ a ∈ d, isSpaceC a = true := List.dropWhile_eq_nil_iff.mp hw
    rw [hc]
    unfold strip
    rw [List.dropWhile_cons_of_pos (hsp c hm), hw]
    rfl
  · rw [if_neg hw] at h
    cases h
    unfold strip
    rw [dropWhile_dropWhile]

theorem parseLine_eq (path : String) (nn : Nat) (line : String) :
    parseLine path nn line =
      match searchLine line.toList with
      | none => none
      | some (idc, tagsc, g3) =>
        some { id := idc.asString, description := (strip g3).asString,
               source_file := path, source_line := nn,
               verification_type :=
                 classify_tags ((tagFindall tagsc).map List.asString) } := rfl

theorem parseLine_fields (path : String) (nn : Nat) (line : String) (r : SpecRequirement)
    (h : parseLine path nn line = some r) :
    r.source_file = path ∧ r.source_line = nn := by
  rw [parseLine_eq] at h
  split at h
  · cases h
  · cases h
    exact ⟨rfl, rfl⟩

theorem parseLinesFrom_cons (path : String) (m : Nat) (l0 : String) (ls : List String) :
    parseLinesFrom path m (l0 :: ls) =
      (parseLine path m l0).toList ++ parseLinesFrom path (m+1) ls := rfl

theorem parseLinesFrom_ge (path : String) :
    ∀ (ls : List String) (m : Nat) (r : SpecRequirement),
    r ∈ parseLinesFrom path m ls → m ≤ r.source_line := by
  intro ls
  induction ls with
  | nil => intro m r h; cases h
  | cons l0 ls2 ih =>
    intro m r h
    rw [parseLinesFrom_cons] at h
    rcases List.mem_append.mp h with h1 | h2
    · cases hp : parseLine path m l0 with
      | none => rw [hp] at h1; cases h1
      | some r2 =>
        rw [hp] at h1
        have : r = r2 := by simpa using h1
        subst this
        exact le_of_eq (parseLine_fields path m l0 r hp).2.symm
    · exact Nat.le_of_succ_le (ih (m+1) r h2)

theorem parseLinesFrom_filter (path : String) :
    ∀ (ls : List String) (m i : Nat) (l2 : String), ls[i]? = some l2 →
    (parseLinesFrom path m ls).filter (fun r => r.source_line = m + i) =
      (parseLine path (m + i) l2).toList := by
  intro ls
  induction ls with
  | nil => intro m i l2 h; simp at h
  | cons l0 ls2 ih =>
    intro m i l2 h
    rw [parseLinesFrom_cons, List.filter_append]
    cases i with
    | zero =>
      have hl : l0 = l2 := by simpa using h
      subst hl
      simp only [Nat.add_zero]
      have hhead : (parseLine path m l0).toList.filter
          (fun r => r.source_line = m) = (parseLine path m l0).toList := by
        cases hp : parseLine path m l0 with
        | none => rfl
        | some r =>
          have hsl := (parseLine_fields path m l0 r hp).2
          simp [Option.toList, List.filter_cons, hsl]
      have htail : (parseLinesFrom path (m+1) ls2).filter
          (fun r => r.source_line = m) = [] := by
        rw [List.filter_eq_nil_iff]
        intro r hr
        have := parseLinesFrom_ge path ls2 (m+1) r hr
        simp only [decide_eq_true_eq]
        omega
      rw [hhead, htail, List.append_nil]
    | succ i2 =>
      have h2 : ls2[i2]? = some l2 := by simpa using h
      have hhead : (parseLine path m l0).toList.filter
          (fun r => r.source_line = m + (i2+1)) = [] := by
        cases hp : parseLine path m l0 with
        | none => rfl
        | some r =>
          have hsl := (parseLine_fields path m l0 r hp).2
          simp only [Option.toList, List.filter_cons, hsl, decide_eq_true_eq]
          have : ¬ (m = m + (i2+1)) := by omega
          simp [this]
      rw [hhead, List.nil_append,
        show m + (i2+1) = (m+1) + i2 by omega]
      exact ih (m+1) i2 l2 h2

/-- C4: per-line extraction agrees with the spec's description of the
requirement pattern.  A line yields a record (exactly one - extraction is
an `Option`) if and only if somewhere in the line there is a bold token
`**PREFIX-NUMBER**` (uppercase prefix, digit number), zero or more
bracketed word tags, a colon and a non-empty description running to the
end of the line; the produced record carries the source path, the given
line number, the matched ID, the whitespace-stripped matched description,
and the classification of exactly the matched tags; and within a whole
file the records attributed to 1-based line `i+1` are exactly what the
line at 0-based index `i` yields. -/
theorem extracted_record_iff_pattern_match (path : String) (nn : Nat) (line : String) :
    ((parseLine path nn line).isSome ↔ LineMatches line) ∧
    (∀ r, parseLine path nn line = some r →
      r.source_file = path ∧ r.source_line = nn ∧
      ∃ pre p n t d,
        line.toList = pre ++ '*' :: '*' :: (p ++ '-' :: (n ++ '*' :: '*' :: (t ++ ':' :: d))) ∧
        p ≠ [] ∧ (∀ c ∈ p, isUpperC c = true) ∧ n ≠ [] ∧ (∀ c ∈ n, isDigitC c = true) ∧
        IsTagsRegion t ∧ d ≠ [] ∧
        r.id = (p ++ '-' :: n).asString ∧
        r.description = (strip d).asString ∧
        r.verification_type = classify_tags ((tagFindall t).map List.asString)) ∧
    (∀ (content : String) (i : Nat) (l2 : String), (splitNl content)[i]? = some l2 →
      (parse_spec_file path content).filter (fun r => r.source_line = i + 1) =
        (parseLine path (i + 1) l2).toList) := by
  refine ⟨⟨?_, ?_⟩, ?_, ?_⟩
  · intro h
    cases hs : searchLine line.toList with
    | none =>
      rw [parseLine_eq, hs] at h
      simp at h
    | some g =>
      obtain ⟨idc, tagsc, g3⟩ := g
      obtain ⟨pre, suf, hsplit, hmat⟩ := searchLine_sound line.toList (idc, tagsc, g3) hs
      obtain ⟨p, n, d, hdecomp, hp, hpu, hn, hnd, hreg, hd, _, _⟩ :=
        matchAt_sound suf idc tagsc g3 hmat
      exact ⟨pre, p, n, tagsc, d, by rw [hsplit, hdecomp], hp, hpu, hn, hnd, hreg, hd⟩
  · intro hm
    obtain ⟨pre, p, n, t, d, hdecomp, hp, hpu, hn, hnd, hreg, hd⟩ := hm
    obtain ⟨g3, hmat, _⟩ := matchAt_complete p n t d hp hpu hn hnd hreg hd
    obtain ⟨g2, hsl⟩ := searchLine_of_suffix pre
      ('*' :: '*' :: (p ++ '-' :: (n ++ '*' :: '*' :: (t ++ ':' :: d))))
      (p ++ '-' :: n, t, g3) hmat
    rw [parseLine_eq, hdecomp, hsl]
    obtain ⟨ga, gb, gc⟩ := g2
    rfl
  · intro r h
    obtain ⟨hsf, hslne⟩ := parseLine_fields path nn line r h
    refine ⟨hsf, hslne, ?_⟩
    rw [parseLine_eq] at h
    cases hs : searchLine line.toList with
    | none => rw [hs] at h; cases h
    | some g =>
      obtain ⟨idc, tagsc, g3⟩ := g
      rw [hs] at h
      cases h
      obtain ⟨pre, suf, hsplit, hmat⟩ := searchLine_sound line.toList (idc, tagsc, g3) hs
      obtain ⟨p, n, d, hdecomp, hp, hpu, hn, hnd, hreg, hd, hidc, hdg⟩ :=
        matchAt_sound suf idc tagsc g3 hmat
      refine ⟨pre, p, n, tagsc, d, by rw [hsplit, hdecomp], hp, hpu, hn, hnd, hreg, hd,
        ?_, ?_, rfl⟩
      · exact congrArg List.asString hidc
      · exact congrArg List.asString (strip_descGroup d g3 hdg)
  · intro content i l2 h
    have hf := parseLinesFrom_filter path (splitNl content) 1 i l2 h
    unfold parse_spec_file
    rw [show i + 1 = 1 + i by omega]
    exact hf

/-- C4 witness: the line `- **AB-12** [skip]: hi` matches the pattern and
yields exactly the record with ID `AB-12`, description `hi`, the given
source position, and the `SKIP` classification. -/
theorem extracted_record_iff_pattern_match_witness :
    LineMatches ("- **AB-12** [skip]: hi") ∧
    parseLine ("spec.md") 5 ("- **AB-12** [skip]: hi") =
      some ⟨"AB-12", "hi", "spec.md", 5, VerificationType.SKIP⟩ := by
  constructor
  · exact (extracted_record_iff_pattern_match ("spec.md") 5
      ("- **AB-12** [skip]: hi")).1.mp (by decide)
  · decide

end SpecTest
